import Mathlib

/-!
Verification of the core simulation of the herbie caravan game.

Shallow embedding conventions:
* JS numbers are modelled as exact rationals (ℚ).  The one place where the
  source produces a NaN (a 0/0 division reaching the caller through
  Math.max/Math.min, which propagate NaN) is modelled with `Option ℚ`,
  `none` standing for NaN.
* Write-once configuration fields of the source classes (`this.spacing`,
  `this.maxStretch`, `this.segmentWidth`, `this.scrollSpeed`,
  `this.baseSpawnRate`, `this.minSpawnRate`, `this.herbieIndex`) are
  assigned in the constructors and never reassigned anywhere in the
  repository, so they are embedded as constants.
* Fields that are written by the core but only ever read by the renderer
  (`swayPhase`, `swayOffset`, `walkPhase`, `bobOffset`, `glowRadius`,
  `size`, `vx`, `vy`) are omitted from the agent record: no modelled
  operation reads them, and their updates call `Math.sin`/`Math.random`,
  which have no bearing on the verified state.
* `Math.random()` draws are passed in as explicit ℚ parameters in [0, 1),
  and `performance.now()` as an explicit `now` parameter.
-/

/-! ## Caravan / constraint engine (src/js/hikers.js) -/

/-- One hiker record, from `HikerSystem.init` (hikers.js lines 17-35),
animation-only fields omitted (see module comment). -/
structure Hiker where
  index : ℕ
  baseSpeed : ℚ
  currentSpeed : ℚ
  x : ℚ
  y : ℚ
  targetY : ℚ
  isWaiting : Bool
  offloadBoost : ℚ
  pulseTime : ℚ
deriving DecidableEq, Repr

/-- Constant `this.spacing`, set once in the `HikerSystem` constructor. -/
def spacing : ℚ := 60

/-- Constant `this.maxStretch`, set once in the `HikerSystem` constructor. -/
def maxStretch : ℚ := 220

/-- Constant `this.herbieIndex`, set once in the `HikerSystem` constructor and
never reassigned: Herbie is always hiker 0. -/
def herbieIndex : ℕ := 0

/-- Offload-boost decay, hikers.js lines 102-109:
if the boost is nonzero it moves toward 0 by `deltaTime * 0.5`
and is snapped to exactly 0 when the result's magnitude is below 0.01. -/
def decayBoost (b dt : ℚ) : ℚ :=
  if b = 0 then b
  else
    let b2 := b + (if 0 < b then -1 else 1) * dt * (1/2)
    if |b2| < 1/100 then 0 else b2

/-- The `(currentSpeed, isWaiting)` selection of hikers.js lines 46-71:
`prev` is `none` for index 0 (Herbie sets the pace, line 69) and
`some ahead` for a follower, `ahead` being `this.hikers[index-1]`,
which the in-place loop has already updated; `hs` is
`herbieSpeed = herbie.baseSpeed + herbie.offloadBoost`, read before the
loop;  `targetSpeed = min(baseSpeed + offloadBoost, herbieSpeed)`. -/
def chooseSpeed (hs : ℚ) (prev : Option Hiker) (h : Hiker) : ℚ × Bool :=
  match prev with
  | none => (hs, false)
  | some ahead =>
    let targetSpeed := min (h.baseSpeed + h.offloadBoost) hs
    let distance := ahead.x - h.x
    if distance < spacing * (4/5) then
      (max 0 (targetSpeed * (distance / spacing)), true)
    else if distance > spacing * (3/2) then
      (h.baseSpeed * (6/5), false)
    else
      (targetSpeed, false)

/-- The body of the `forEach` in `HikerSystem.update` (hikers.js lines
46-113) for a single hiker: pick the speed/waiting pair, advance `x`,
ease `y` toward the ground height at the new `x` (holding `targetY`
when there is no ground), decay the offload boost and run down the
pulse timer.  `getY` is `terrain.getYAtX`. -/
def stepOne (hs : ℚ) (getY : ℚ → Option ℚ) (dt : ℚ)
    (prev : Option Hiker) (h : Hiker) : Hiker :=
  let sw := chooseSpeed hs prev h
  let x2 := h.x + sw.1 * 100 * dt
  let targetY2 := match getY x2 with | some g => g | none => h.targetY
  let y2 := h.y + (targetY2 - h.y) * 5 * dt
  { h with
      currentSpeed := sw.1
      isWaiting := sw.2
      x := x2
      targetY := targetY2
      y := y2
      offloadBoost := decayBoost h.offloadBoost dt
      pulseTime := if 0 < h.pulseTime then max 0 (h.pulseTime - dt) else h.pulseTime }

/-- The in-place `forEach` of `HikerSystem.update`: each hiker is updated
in index order, and a follower reads the already-updated hiker ahead. -/
def stepList (hs : ℚ) (getY : ℚ → Option ℚ) (dt : ℚ) :
    Option Hiker → List Hiker → List Hiker
  | _, [] => []
  | prev, h :: t =>
    let h2 := stepOne hs getY dt prev h
    h2 :: stepList hs getY dt (some h2) t

/-- The caravan state: the hiker array plus `herbieLabelTime` (the only
other mutable field of `HikerSystem`). -/
structure HikerSystem where
  hikers : List Hiker
  herbieLabelTime : ℚ
deriving DecidableEq, Repr

/-- Source `HikerSystem.init(startX, startY)` (hikers.js lines 12-36), with the
`baseSpeeds.map((baseSpeed, index) => ...)` over
`[1.0, 1.15, 1.3, 1.45, 1.6]` unrolled: hiker `i` starts at
`x = startX - i * spacing` with `currentSpeed = baseSpeed`,
`offloadBoost = 0`, `isWaiting = false`, `pulseTime = 0`. -/
def HikerSystem.init (startX startY : ℚ) : HikerSystem :=
  { hikers :=
      [ { index := 0, baseSpeed := 1,     currentSpeed := 1,     x := startX,
          y := startY, targetY := startY, isWaiting := false, offloadBoost := 0, pulseTime := 0 },
        { index := 1, baseSpeed := 23/20, currentSpeed := 23/20, x := startX - 60,
          y := startY, targetY := startY, isWaiting := false, offloadBoost := 0, pulseTime := 0 },
        { index := 2, baseSpeed := 13/10, currentSpeed := 13/10, x := startX - 120,
          y := startY, targetY := startY, isWaiting := false, offloadBoost := 0, pulseTime := 0 },
        { index := 3, baseSpeed := 29/20, currentSpeed := 29/20, x := startX - 180,
          y := startY, targetY := startY, isWaiting := false, offloadBoost := 0, pulseTime := 0 },
        { index := 4, baseSpeed := 8/5,   currentSpeed := 8/5,   x := startX - 240,
          y := startY, targetY := startY, isWaiting := false, offloadBoost := 0, pulseTime := 0 } ],
    herbieLabelTime := 0 }

/-- Source `HikerSystem.update(deltaTime, terrain)` (hikers.js lines 38-115).
`herbieSpeed` is read from `this.hikers[this.herbieIndex]` (index 0)
before the loop.  The terrain argument is only used through
`terrain.getYAtX`, passed here as the function `getY`.  (On an empty
hiker array the JS would throw reading `hikers[0]`; `init` always
creates five hikers, and the state is returned unchanged here apart
from the label timer.) -/
def HikerSystem.update (sys : HikerSystem) (dt : ℚ) (getY : ℚ → Option ℚ) : HikerSystem :=
  let label := max 0 (sys.herbieLabelTime - dt)
  match sys.hikers with
  | [] => { sys with herbieLabelTime := label }
  | herbie :: rest =>
    let hs := herbie.baseSpeed + herbie.offloadBoost
    { hikers := stepList hs getY dt none (herbie :: rest), herbieLabelTime := label }

/-- In-place update of one element of a JS array, used to model the
field assignments of `offloadHiker` on `this.hikers[i]`. -/
def modifyAt (f : Hiker → Hiker) : ℕ → List Hiker → List Hiker
  | _, [] => []
  | 0, a :: l => f a :: l
  | n + 1, a :: l => a :: modifyAt f n l

/-- Source `HikerSystem.triggerPulse` (hikers.js lines 136-140). -/
def HikerSystem.triggerPulse (sys : HikerSystem) : HikerSystem :=
  { sys with hikers := sys.hikers.map (fun h => { h with pulseTime := 4/5 }) }

/-- Source `HikerSystem.setHerbieLabel` (hikers.js lines 132-134). -/
def HikerSystem.setHerbieLabel (sys : HikerSystem) (seconds : ℚ) : HikerSystem :=
  { sys with herbieLabelTime := seconds }

/-- Source `HikerSystem.offloadHiker(hikerIndex)` (hikers.js lines 118-130):
no-op when the index is Herbie's; otherwise the tapped hiker's boost is
set to -0.2, Herbie's boost to `max(current, 0.4)`, and a pulse is
triggered on all hikers.  (An out-of-range index would throw in JS; the
in-place update is a no-op there, and only valid indices are claimed.) -/
def HikerSystem.offloadHiker (sys : HikerSystem) (hikerIndex : ℕ) : HikerSystem :=
  if hikerIndex = herbieIndex then sys
  else
    let l1 := modifyAt (fun h => { h with offloadBoost := -(1/5) }) hikerIndex sys.hikers
    let l2 := modifyAt (fun h => { h with offloadBoost := max h.offloadBoost (2/5) }) herbieIndex l1
    HikerSystem.triggerPulse { sys with hikers := l2 }

/-- The adjacent leader-to-follower gaps `hikers[i-1].x - hikers[i].x`
summed by the loop in `getFlowMultiplier` (hikers.js lines 147-151). -/
def adjacentGaps (l : List Hiker) : List ℚ :=
  (l.zip l.tail).map (fun p => p.1.x - p.2.x)

/-- Source `HikerSystem.getFlowMultiplier` (hikers.js lines 143-161).
With fewer than 2 hikers the loop never runs, `count = 0`, and the JS
computes `avgSpacing = 0/0 = NaN`; `NaN` then propagates through
`Math.abs`, `Math.max` and `Math.min` (all of which return NaN on a NaN
argument), so the function returns NaN — modelled as `none`. -/
def HikerSystem.getFlowMultiplier (sys : HikerSystem) : Option ℚ :=
  if sys.hikers.length ≤ 1 then none
  else
    let avgSpacing := (adjacentGaps sys.hikers).sum / ((sys.hikers.length - 1 : ℕ) : ℚ)
    let deviation := |avgSpacing - spacing|
    some (min 3 (max 1 (3 - deviation / spacing)))

/-! ## Terrain generator (src/js/terrain.js)

The two decorative parallax layers (`farLayer`, `midLayer`) are omitted:
they are generated from `Math.random`, are never read by `getYAtX`,
`isOnGround` or any other modelled query, and no claim concerns them. -/

/-- One walkable ground segment (terrain.js lines 78-84).  The JS
`hasGap` flag is mutated through an object alias held by a gap
obstacle; since segment `x` values are strictly increasing and never
reused, a segment is identified here by its `x`. -/
structure Segment where
  x : ℚ
  y : ℚ
  width : ℚ
  height : ℚ
  hasGap : Bool
deriving DecidableEq, Repr

/-- Constant `this.segmentWidth`, set once in the `Terrain` constructor. -/
def segmentWidth : ℚ := 150

/-- Constant `this.scrollSpeed`, set once in the `Terrain` constructor. -/
def scrollSpeed : ℚ := 80

/-- The `Terrain` state (mutable fields only; see the segment-identity
remark above for `hasGap`). -/
structure Terrain where
  cameraX : ℚ
  segments : List Segment
  nextSegmentX : ℚ
  canvasWidth : ℚ
  canvasHeight : ℚ
  baseY : ℚ
deriving DecidableEq, Repr

/-- Source `Terrain.generateSegment` (terrain.js lines 77-88): push a segment
of width 150 and height 20 at `nextSegmentX` with `y = baseY`,
`hasGap = false`, then advance `nextSegmentX` by the segment width. -/
def generateSegment (t : Terrain) : Terrain :=
  { t with
      segments := t.segments ++
        [{ x := t.nextSegmentX, y := t.baseY, width := segmentWidth, height := 20, hasGap := false }],
      nextSegmentX := t.nextSegmentX + segmentWidth }

/-- Source `Terrain.init(canvasWidth, canvasHeight)` (terrain.js lines 26-46):
reset everything, set `baseY = canvasHeight * 0.7`, then generate 10
initial segments. -/
def Terrain.init (canvasWidth canvasHeight : ℚ) : Terrain :=
  generateSegment^[10]
    { cameraX := 0, segments := [], nextSegmentX := 0,
      canvasWidth := canvasWidth, canvasHeight := canvasHeight,
      baseY := canvasHeight * (7/10) }

/-- The `while (this.nextSegmentX < rightEdge) generateSegment()` loop of
`Terrain.update` (terrain.js lines 59-61). -/
def genLoop (t : Terrain) (rightEdge : ℚ) : Terrain :=
  if t.nextSegmentX < rightEdge then genLoop (generateSegment t) rightEdge else t
termination_by (⌈rightEdge - t.nextSegmentX⌉ : ℤ).toNat
decreasing_by
  simp only [generateSegment]
  have h150 : (segmentWidth : ℚ) = ((150 : ℤ) : ℚ) := by norm_num [segmentWidth]
  have hc : ⌈rightEdge - (t.nextSegmentX + segmentWidth)⌉ = ⌈rightEdge - t.nextSegmentX⌉ - 150 := by
    rw [show rightEdge - (t.nextSegmentX + segmentWidth)
          = rightEdge - t.nextSegmentX - ((150 : ℤ) : ℚ) by rw [← h150]; ring]
    exact Int.ceil_sub_int _ _
  have hp : 0 < ⌈rightEdge - t.nextSegmentX⌉ := Int.ceil_pos.mpr (by linarith)
  omega

/-- Source `Terrain.update(deltaTime, distance, herbieX)` (terrain.js lines
48-75): ease the camera toward the leader (or auto-scroll), generate
segments up to `cameraX + canvasWidth + 200`, and prune segments fully
behind `cameraX - 100`.  The `distance` argument is unused by the
source body.  Parallax layers omitted (see section comment). -/
def Terrain.update (t : Terrain) (dt : ℚ) (_distance : ℚ) (herbieX : Option ℚ) : Terrain :=
  let cam :=
    match herbieX with
    | some hx => t.cameraX + (max 0 (hx - t.canvasWidth * (3/10)) - t.cameraX) * min 1 (dt * 4)
    | none => t.cameraX + scrollSpeed * dt
  let t2 := genLoop { t with cameraX := cam } (cam + t.canvasWidth + 200)
  { t2 with segments := t2.segments.filter (fun s => decide (cam - 100 < s.x + s.width)) }

/-- Source `Terrain.getYAtX(x)` (terrain.js lines 125-131): the `y` of the
covering segment when one exists and is not gapped, else null. -/
def Terrain.getYAtX (t : Terrain) (x : ℚ) : Option ℚ :=
  match t.segments.find? (fun s => decide (s.x ≤ x ∧ x < s.x + s.width)) with
  | some s => if s.hasGap then none else some s.y
  | none => none

/-- Mutation of the `hasGap` flag of the segment aliased by a gap
obstacle (`segment.hasGap = b` in obstacles.js lines 95 and 157),
keyed by the segment's unique `x`. -/
def setGapFlag (segs : List Segment) (sx : ℚ) (b : Bool) : List Segment :=
  segs.map (fun s => if s.x = sx then { s with hasGap := b } else s)

/-! ## Obstacle manager (src/js/obstacles.js) -/

inductive ObstacleType where
  | gap
  | wall
  | platform
  | barrier
deriving DecidableEq, Repr

/-- One obstacle (obstacles.js lines 80-141).  `segRef` is the `segment`
alias a gap obstacle holds, keyed by the segment's `x`; `lowered` is the
platform-only flag. -/
structure Obstacle where
  type : ObstacleType
  x : ℚ
  y : ℚ
  width : ℚ
  height : ℚ
  cleared : Bool
  clearing : Bool
  clearProgress : ℚ
  glowPhase : ℚ
  segRef : Option ℚ
  lowered : Bool
deriving DecidableEq, Repr

/-- Constant `this.baseSpawnRate`, set once in the `ObstacleSystem` constructor. -/
def baseSpawnRate : ℚ := 180

/-- Constant `this.minSpawnRate`, set once in the `ObstacleSystem` constructor. -/
def minSpawnRate : ℚ := 120

structure ObstacleSystem where
  obstacles : List Obstacle
  nextObstacleDistance : ℚ
  obstaclesCleared : ℕ
  lastClearTime : ℚ
deriving DecidableEq, Repr

/-- Source `ObstacleSystem.init` (obstacles.js lines 13-18). -/
def ObstacleSystem.init : ObstacleSystem :=
  { obstacles := [], nextObstacleDistance := 400, obstaclesCleared := 0, lastClearTime := 0 }

/-- The difficulty ramp `Math.min(1.0, distance * 0.0002)` (obstacles.js
lines 26 and 54). -/
def difficultyAt (distance : ℚ) : ℚ := min 1 (distance * (1/5000))

/-- The weighted type selection of `spawnObstacle` (obstacles.js lines
54-67), with the `Math.random()` draw passed in as `rand ∈ [0,1)`. -/
def chooseObstacleType (difficulty rand : ℚ) : ObstacleType :=
  if difficulty < 1/5 then
    if rand < 2/5 then .wall else if rand < 7/10 then .barrier else .gap
  else if difficulty < 1/2 then
    if rand < 1/4 then .gap else if rand < 1/2 then .wall
    else if rand < 3/4 then .barrier else .platform
  else
    if rand < 1/5 then .gap else if rand < 9/20 then .wall
    else if rand < 7/10 then .barrier else .platform

/-- The covering-segment test `spawnX >= seg.x && spawnX < seg.x + seg.width`
of obstacles.js lines 72-74. -/
def coversB (px : ℚ) (s : Segment) : Bool := decide (s.x ≤ px ∧ px < s.x + s.width)

/-- Source `ObstacleSystem.spawnObstacle(terrain, distance)` (obstacles.js lines
52-144): choose a type from the difficulty band, find the segment
covering `cameraX + canvasWidth + 200` (skip the spawn when there is
none), build the typed obstacle, and for a gap flag the host segment. -/
def spawnObstacle (sys : ObstacleSystem) (cameraX canvasWidth : ℚ) (segs : List Segment)
    (distance rand : ℚ) : ObstacleSystem × List Segment :=
  let type := chooseObstacleType (difficultyAt distance) rand
  let spawnX := cameraX + canvasWidth + 200
  match segs.find? (coversB spawnX) with
  | none => (sys, segs)
  | some seg =>
    match type with
    | .gap =>
      ({ sys with obstacles := sys.obstacles ++
          [{ type := .gap, x := seg.x, y := seg.y, width := seg.width, height := 20,
             cleared := false, clearing := false, clearProgress := 0, glowPhase := 0,
             segRef := some seg.x, lowered := false }] },
       setGapFlag segs seg.x true)
    | .wall =>
      ({ sys with obstacles := sys.obstacles ++
          [{ type := .wall, x := seg.x + seg.width * (3/10), y := seg.y - 60, width := 30,
             height := 60, cleared := false, clearing := false, clearProgress := 0,
             glowPhase := 0, segRef := none, lowered := false }] }, segs)
    | .platform =>
      ({ sys with obstacles := sys.obstacles ++
          [{ type := .platform, x := seg.x + seg.width * (3/10), y := seg.y - 50, width := 80,
             height := 50, cleared := false, clearing := false, clearProgress := 0,
             glowPhase := 0, segRef := none, lowered := false }] }, segs)
    | .barrier =>
      ({ sys with obstacles := sys.obstacles ++
          [{ type := .barrier, x := seg.x + seg.width * (4/10), y := seg.y - 80, width := 20,
             height := 80, cleared := false, clearing := false, clearProgress := 0,
             glowPhase := 0, segRef := none, lowered := false }] }, segs)

/-- Source `ObstacleSystem.update(deltaTime, terrain, distance)` (obstacles.js
lines 20-50): distance-triggered spawn with difficulty-ramped next
threshold (`randJitter ∈ [0,1)` is the jitter draw, `randType` the type
draw), then the clearing/glow animation pass, then pruning of obstacles
that are cleared or fully behind the camera. -/
def ObstacleSystem.update (sys : ObstacleSystem) (dt : ℚ) (cameraX canvasWidth : ℚ)
    (segs : List Segment) (distance randType randJitter : ℚ) : ObstacleSystem × List Segment :=
  let spawned :=
    if sys.nextObstacleDistance < distance then
      let r := spawnObstacle sys cameraX canvasWidth segs distance randType
      let difficulty := difficultyAt distance
      let spawnRate := baseSpawnRate - (baseSpawnRate - minSpawnRate) * difficulty
      ({ r.1 with nextObstacleDistance := distance + spawnRate + randJitter * 80 }, r.2)
    else (sys, segs)
  let anim := spawned.1.obstacles.map (fun o =>
    let o2 :=
      if o.clearing then
        let p := o.clearProgress + dt * 2
        { o with clearProgress := p, cleared := if 1 ≤ p then true else o.cleared }
      else o
    { o2 with glowPhase := o2.glowPhase + dt * 2 })
  ({ spawned.1 with
      obstacles := anim.filter (fun o => !o.cleared && decide (cameraX - 200 < o.x)) },
   spawned.2)

/-- Source `ObstacleSystem.clearObstacle(obstacle)` (obstacles.js lines
147-166).  The JS argument is an object reference into
`this.obstacles`; it is modelled as the index `i` of that obstacle.
Returns false and leaves every field untouched when the obstacle is
already cleared or clearing; otherwise enters `clearing`, un-flags the
gap segment for a gap obstacle, increments the cleared counter and
timestamps the clear (`now` models `performance.now()`). -/
def clearObstacle (sys : ObstacleSystem) (segs : List Segment) (i : ℕ) (now : ℚ) :
    Bool × ObstacleSystem × List Segment :=
  match sys.obstacles.get? i with
  | none => (false, sys, segs)
  | some obs =>
    if obs.cleared || obs.clearing then (false, sys, segs)
    else
      let obs2 := { obs with clearing := true }
      let segs2 :=
        if obs.type = .gap then
          match obs.segRef with
          | some sx => setGapFlag segs sx false
          | none => segs
        else segs
      (true,
       { sys with
           obstacles := sys.obstacles.set i obs2,
           obstaclesCleared := sys.obstaclesCleared + 1,
           lastClearTime := now },
       segs2)

/-! ## Game orchestrator state machine (src/unnamed/part_001, Game) -/

inductive GState where
  | title
  | playing
  | paused
  | gameover
deriving DecidableEq, Repr

/-- The orchestrator's state-machine-relevant state: the `gameState` tag
and the input system's enablement (`this.input.enable()/disable()`). -/
structure GameM where
  gameState : GState
  inputEnabled : Bool
deriving DecidableEq, Repr

/-- Source `Game.pauseGame` (part_001 lines 97-102): guarded on
`gameState === 'playing'`; on success enters `paused` and disables
input (the `ui.showPause()` call is presentation-only). -/
def pauseGame (g : GameM) : GameM :=
  if g.gameState = .playing then { gameState := .paused, inputEnabled := false } else g

/-- Source `Game.resumeGame` (part_001 lines 104-109): guarded on
`gameState === 'paused'`; on success re-enters `playing` and enables
input (the `ui.hidePause()` call is presentation-only). -/
def resumeGame (g : GameM) : GameM :=
  if g.gameState = .paused then { gameState := .playing, inputEnabled := true } else g

/-! ## Verification predicates -/

/-- Per-hiker bounds maintained by every reachable caravan state: base
speeds come from `[1.0, 1.15, 1.3, 1.45, 1.6]` and the offload boost
only ever takes values produced by `offloadHiker` (-0.2, capped 0.4)
and their decays. -/
def Bounds (h : Hiker) : Prop :=
  1 ≤ h.baseSpeed ∧ h.baseSpeed ≤ 8/5 ∧ -(1/5) ≤ h.offloadBoost ∧ h.offloadBoost ≤ 2/5

/-- The caravan invariant: per-hiker bounds plus strict front-to-back
ordering of positions (each follower strictly behind the hiker ahead). -/
def CaravanInv (sys : HikerSystem) : Prop :=
  (∀ h ∈ sys.hikers, Bounds h) ∧
  List.Chain' (fun a b => b.x < a.x) sys.hikers

/-- Run states of the caravan system: an `init` state followed by any
interleaving of `update` ticks (with the orchestrator's clamp
`0 < deltaTime ≤ 0.1` and an arbitrary terrain ground-height query),
offload taps, label resets and pulses. -/
inductive Reachable : HikerSystem → Prop where
  | init (startX startY : ℚ) : Reachable (HikerSystem.init startX startY)
  | update (sys : HikerSystem) (dt : ℚ) (getY : ℚ → Option ℚ) (hr : Reachable sys)
      (h1 : 0 < dt) (h2 : dt ≤ 1/10) : Reachable (sys.update dt getY)
  | offload (sys : HikerSystem) (i : ℕ) (hr : Reachable sys) :
      Reachable (sys.offloadHiker i)
  | setLabel (sys : HikerSystem) (s : ℚ) (hr : Reachable sys) :
      Reachable (sys.setHerbieLabel s)
  | pulse (sys : HikerSystem) (hr : Reachable sys) : Reachable sys.triggerPulse

/-- Claim C2's follower speed rule, stated with the claim's literal
constants: `gap = aheadNew.x - selfOld.x` is the distance the loop body
computes (already-updated hiker ahead, not-yet-updated follower), and
`hs` is the leader speed `baseSpeed + offloadBoost` read before the
loop. -/
def FollowerRule (hs : ℚ) (selfOld aheadNew selfNew : Hiker) : Prop :=
  let gap := aheadNew.x - selfOld.x
  let tSpd := min (selfOld.baseSpeed + selfOld.offloadBoost) hs
  if gap < (4/5) * 60 then
    selfNew.isWaiting = true ∧ selfNew.currentSpeed = max 0 (tSpd * (gap / 60))
  else if gap > (3/2) * 60 then
    selfNew.isWaiting = false ∧ selfNew.currentSpeed = selfOld.baseSpeed * (6/5)
  else
    selfNew.isWaiting = false ∧ selfNew.currentSpeed = tSpd

/-- The terrain invariant: `baseY` is 70% of the canvas height, every
segment is a width-150, height-20 strip at `y = baseY`, consecutive
segments abut exactly, and the generation cursor sits at the end of the
last segment. -/
def TInv (t : Terrain) : Prop :=
  t.baseY = t.canvasHeight * (7/10) ∧
  (∀ s ∈ t.segments, s.y = t.baseY ∧ s.width = 150 ∧ s.height = 20) ∧
  List.Chain' (fun a b : Segment => b.x = a.x + 150) t.segments ∧
  (∀ s, t.segments.getLast? = some s → s.x + 150 = t.nextSegmentX)

/-- Claim C10's statement: all segments flat at `0.7 × canvasHeight`
and width 150, contiguous, strictly ordered by `x`, and every
successful ground query returns that same constant height. -/
def TerrainFlat (t : Terrain) : Prop :=
  (∀ s ∈ t.segments, s.y = t.canvasHeight * (7/10) ∧ s.width = 150) ∧
  List.Chain' (fun a b : Segment => b.x = a.x + 150) t.segments ∧
  (∀ s, t.segments.getLast? = some s → s.x + 150 = t.nextSegmentX) ∧
  List.Pairwise (fun a b : Segment => a.x < b.x) t.segments ∧
  (∀ x q, t.getYAtX x = some q → q = t.canvasHeight * (7/10))

/-- Run states of the terrain: `init`, any number of `update` calls
(arbitrary `deltaTime`, distance and camera target), and the gap-flag
mutations performed on aliased segments by the obstacle manager. -/
inductive TReachable : Terrain → Prop where
  | init (w h : ℚ) : TReachable (Terrain.init w h)
  | update (t : Terrain) (dt dist : ℚ) (hx : Option ℚ) (ht : TReachable t) :
      TReachable (t.update dt dist hx)
  | setGap (t : Terrain) (sx : ℚ) (b : Bool) (ht : TReachable t) :
      TReachable { t with segments := setGapFlag t.segments sx b }

/-! ### Helper lemmas about in-place array updates -/

theorem modifyAt_length (f : Hiker → Hiker) :
    ∀ (i : ℕ) (l : List Hiker), (modifyAt f i l).length = l.length
  | _, [] => by simp [modifyAt]
  | 0, _ :: _ => by simp [modifyAt]
  | n + 1, _ :: l => by simpa [modifyAt] using modifyAt_length f n l

theorem get?_modifyAt_self (f : Hiker → Hiker) :
    ∀ (i : ℕ) (l : List Hiker), (modifyAt f i l).get? i = (l.get? i).map f
  | _, [] => by simp [modifyAt]
  | 0, _ :: _ => by simp [modifyAt]
  | n + 1, _ :: l => by simpa [modifyAt] using get?_modifyAt_self f n l

theorem get?_modifyAt_ne (f : Hiker → Hiker) :
    ∀ (i j : ℕ) (l : List Hiker), i ≠ j → (modifyAt f j l).get? i = l.get? i := by
  intro i j l
  induction l generalizing i j with
  | nil => intro _; simp [modifyAt]
  | cons a t ih =>
    intro h
    cases j with
    | zero =>
      cases i with
      | zero => exact absurd rfl h
      | succ n => simp [modifyAt]
    | succ m =>
      cases i with
      | zero => simp [modifyAt]
      | succ n => simpa [modifyAt] using ih n m (by omega)

/-- The boost of a hiker is untouched by the pulse map of `triggerPulse`. -/
theorem get?_pulse_boost (l : List Hiker) (k : ℕ) :
    ((l.map (fun h => { h with pulseTime := 4/5 })).get? k).map Hiker.offloadBoost
      = (l.get? k).map Hiker.offloadBoost := by
  rw [List.get?_map, Option.map_map]
  rfl

/-! ## C5: offload semantics -/

/-- C5: `offloadHiker` at the leader index is a no-op; at a valid
follower index it overwrites the follower's boost with exactly -0.2 and
sets the leader's boost to `max(current, 0.4)`; applied twice in a row
the leader's boost is still `max(original, 0.4)`, hence at most 0.4
whenever the original boost was. -/
theorem C5_offload_semantics (sys : HikerSystem) (i : ℕ)
    (hi0 : 0 < i) (hilen : i < sys.hikers.length) :
    sys.offloadHiker herbieIndex = sys ∧
    ((sys.offloadHiker i).hikers.get? i).map Hiker.offloadBoost = some (-(1/5)) ∧
    ((sys.offloadHiker i).hikers.get? herbieIndex).map Hiker.offloadBoost
      = (sys.hikers.get? herbieIndex).map (fun h => max h.offloadBoost (2/5)) ∧
    (((sys.offloadHiker i).offloadHiker i).hikers.get? herbieIndex).map Hiker.offloadBoost
      = (sys.hikers.get? herbieIndex).map (fun h => max h.offloadBoost (2/5)) ∧
    (∀ h0, sys.hikers.get? herbieIndex = some h0 → h0.offloadBoost ≤ 2/5 →
      max h0.offloadBoost (2/5) ≤ 2/5) := by
  have hne : ¬ i = herbieIndex := by simp [herbieIndex]; omega
  have hunfold : ∀ s : HikerSystem, (s.offloadHiker i).hikers
      = ((modifyAt (fun h => { h with offloadBoost := max h.offloadBoost (2/5) }) herbieIndex
          (modifyAt (fun h => { h with offloadBoost := -(1/5) }) i s.hikers)).map
          (fun h => { h with pulseTime := 4/5 })) := by
    intro s
    simp [HikerSystem.offloadHiker, hne, HikerSystem.triggerPulse]
  refine ⟨by simp [HikerSystem.offloadHiker], ?_, ?_, ?_, ?_⟩
  · rw [hunfold sys, get?_pulse_boost,
      get?_modifyAt_ne _ i herbieIndex _ hne,
      get?_modifyAt_self]
    cases hg : sys.hikers.get? i with
    | none => exact absurd (List.get?_eq_none.mp hg) (by omega)
    | some a => rfl
  · rw [hunfold sys, get?_pulse_boost, get?_modifyAt_self,
      get?_modifyAt_ne _ herbieIndex i _ (fun h => hne h.symm)]
    cases sys.hikers.get? herbieIndex <;> rfl
  · rw [hunfold (sys.offloadHiker i), get?_pulse_boost, get?_modifyAt_self,
      get?_modifyAt_ne _ herbieIndex i _ (fun h => hne h.symm),
      hunfold sys, List.get?_map, get?_modifyAt_self,
      get?_modifyAt_ne _ herbieIndex i _ (fun h => hne h.symm)]
    cases hg : sys.hikers.get? herbieIndex with
    | none => rfl
    | some a =>
      simp only [Option.map_some', Option.map_map]
      congr 1
      show max (max a.offloadBoost (2/5)) (2/5) = max a.offloadBoost (2/5)
      rw [max_assoc, max_self]
  · intro h0 _ hb
    exact max_le hb (le_refl _)

/-- Witness for C5 on the initial caravan, offloading hiker 2:
its boost becomes exactly -0.2 and Herbie's becomes `max(0, 0.4)`. -/
theorem C5_witness :
    HikerSystem.offloadHiker (HikerSystem.init 200 420) herbieIndex = HikerSystem.init 200 420 ∧
    (((HikerSystem.init 200 420).offloadHiker 2).hikers.get? 2).map Hiker.offloadBoost
      = some (-(1/5)) ∧
    (((HikerSystem.init 200 420).offloadHiker 2).hikers.get? herbieIndex).map Hiker.offloadBoost
      = ((HikerSystem.init 200 420).hikers.get? herbieIndex).map
          (fun h => max h.offloadBoost (2/5)) :=
  ⟨(C5_offload_semantics (HikerSystem.init 200 420) 2 (by norm_num) (by decide)).1,
   (C5_offload_semantics (HikerSystem.init 200 420) 2 (by norm_num) (by decide)).2.1,
   (C5_offload_semantics (HikerSystem.init 200 420) 2 (by norm_num) (by decide)).2.2.1⟩

/-! ## C9: invalid state transitions are silent no-ops -/

/-- C9: calling `pauseGame` in any state other than `playing` leaves the
game state and input enablement unchanged, and calling `resumeGame` in
any state other than `paused` likewise changes nothing.  (Both are total
functions of the model, so neither throws.) -/
theorem C9_invalid_transitions_noop (g : GameM) :
    (g.gameState ≠ .playing → pauseGame g = g) ∧
    (g.gameState ≠ .paused → resumeGame g = g) := by
  constructor
  · intro h
    simp [pauseGame, h]
  · intro h
    simp [resumeGame, h]

/-- Witness for C9 at the concrete state `(title, input disabled)`. -/
theorem C9_witness :
    pauseGame { gameState := .title, inputEnabled := false } =
      { gameState := .title, inputEnabled := false } ∧
    resumeGame { gameState := .title, inputEnabled := false } =
      { gameState := .title, inputEnabled := false } :=
  ⟨(C9_invalid_transitions_noop _).1 (by decide),
   (C9_invalid_transitions_noop _).2 (by decide)⟩

/-! ## C4: early-game obstacle type distribution -/

/-- Counterexample to C4: at distance 0 (difficulty 0 < 0.2) the random
draw 0.8 spawns a `gap` obstacle, which is neither a wall nor a
barrier — the early band draws gaps with probability 0.3, not 0.
Evaluated through the full `spawnObstacle` with a segment covering the
spawn position `cameraX + canvasWidth + 200 = 50`. -/
theorem C4_counterexample :
    (spawnObstacle ObstacleSystem.init (-950) 800
        [{ x := 0, y := 420, width := 150, height := 20, hasGap := false }]
        0 (4/5)).1.obstacles.map Obstacle.type = [ObstacleType.gap] ∧
    ObstacleType.gap ≠ ObstacleType.wall ∧ ObstacleType.gap ≠ ObstacleType.barrier := by
  refine ⟨?_, by decide, by decide⟩
  norm_num [spawnObstacle, ObstacleSystem.init, difficultyAt, chooseObstacleType, coversB]

/-- C4 amended: while `difficulty < 0.2`, the spawn type is drawn from
{wall, barrier, gap} (wall for rand < 0.4, barrier for 0.4 ≤ rand < 0.7,
gap for rand ≥ 0.7); a platform is never spawned in that band, but a
gap is (probability 0.3), contrary to the claim's {wall, barrier}
restriction. -/
theorem C4_early_band_types (d rand : ℚ) (hd : d < 1/5) (h0 : 0 ≤ rand) (h1 : rand < 1) :
    (chooseObstacleType d rand = .wall ∨ chooseObstacleType d rand = .barrier ∨
      chooseObstacleType d rand = .gap) ∧
    chooseObstacleType d rand ≠ .platform ∧
    (chooseObstacleType d rand = .gap ↔ 7/10 ≤ rand) := by
  unfold chooseObstacleType
  rw [if_pos hd]
  split_ifs with h2 h3
  · exact ⟨Or.inl rfl, by simp, ⟨(fun h => by cases h), (fun h => absurd h (by linarith))⟩⟩
  · exact ⟨Or.inr (Or.inl rfl), by simp, ⟨(fun h => by cases h), (fun h => absurd h (by linarith))⟩⟩
  · exact ⟨Or.inr (Or.inr rfl), by simp, ⟨(fun _ => by linarith), (fun _ => rfl)⟩⟩

/-- Witness for C4's amended band statement at difficulty 0, rand 0.8. -/
theorem C4_early_band_types_witness :
    (chooseObstacleType 0 (4/5) = .wall ∨ chooseObstacleType 0 (4/5) = .barrier ∨
      chooseObstacleType 0 (4/5) = .gap) ∧
    chooseObstacleType 0 (4/5) ≠ .platform ∧
    (chooseObstacleType 0 (4/5) = .gap ↔ 7/10 ≤ (4/5 : ℚ)) :=
  C4_early_band_types 0 (4/5) (by norm_num) (by norm_num) (by norm_num)

/-! ## C3: flow multiplier range and the degenerate case -/

/-- Counterexample to C3's degenerate case: with fewer than 2 hikers
(here the constructor state, an empty hiker array) `getFlowMultiplier`
computes `avgSpacing = 0/0 = NaN` and NaN propagates through
`Math.abs`, `Math.max(1.0, ·)` and `Math.min(3.0, ·)`, so the JS
returns NaN (modelled `none`), not 1.0. -/
theorem C3_counterexample :
    HikerSystem.getFlowMultiplier { hikers := [], herbieLabelTime := 0 } = none ∧
    HikerSystem.getFlowMultiplier { hikers := [], herbieLabelTime := 0 } ≠ some 1 := by
  decide

/-- C3 amended: for every configuration with at least 2 agents,
`getFlowMultiplier` returns
`clamp(3.0 - |avgSpacing - 60| / 60, 1.0, 3.0)`, a value in [1.0, 3.0];
with fewer than 2 agents the JS computation divides 0 by 0 and returns
NaN, not 1.0. -/
theorem C3_flow_range (sys : HikerSystem) (h2 : 2 ≤ sys.hikers.length) :
    ∃ r, sys.getFlowMultiplier = some r ∧ 1 ≤ r ∧ r ≤ 3 ∧
      r = min 3 (max 1
        (3 - |(adjacentGaps sys.hikers).sum / ((sys.hikers.length - 1 : ℕ) : ℚ) - 60| / 60)) := by
  refine ⟨_, ?_, ?_, ?_, rfl⟩
  · unfold HikerSystem.getFlowMultiplier
    rw [if_neg (by omega)]
    norm_num [spacing]
  · exact le_min (by norm_num) (le_max_left _ _)
  · exact min_le_left _ _

/-- Witness for C3's amended range statement on the initial caravan. -/
theorem C3_flow_range_witness :
    ∃ r, (HikerSystem.init 200 420).getFlowMultiplier = some r ∧ 1 ≤ r ∧ r ≤ 3 ∧
      r = min 3 (max 1
        (3 - |(adjacentGaps (HikerSystem.init 200 420).hikers).sum /
          (((HikerSystem.init 200 420).hikers.length - 1 : ℕ) : ℚ) - 60| / 60)) :=
  C3_flow_range (HikerSystem.init 200 420) (by decide)

/-! ## C6: clearObstacle idempotence and atomicity -/

/-- C6: on a live obstacle `clearObstacle` returns true, marks it
`clearing` and increments the cleared counter by exactly 1; an
immediately repeated call on the same obstacle returns false and leaves
the system and segments unchanged, so the counter is incremented exactly
once; and on any already cleared-or-clearing obstacle the call is a
failure-returning no-op. -/
theorem C6_clear_idempotent (sys : ObstacleSystem) (segs : List Segment) (i : ℕ) (now : ℚ)
    (obs : Obstacle) (hget : sys.obstacles.get? i = some obs)
    (hnc : obs.cleared = false) (hncl : obs.clearing = false) :
    (clearObstacle sys segs i now).1 = true ∧
    (clearObstacle sys segs i now).2.1.obstaclesCleared = sys.obstaclesCleared + 1 ∧
    (clearObstacle sys segs i now).2.1.obstacles.get? i = some { obs with clearing := true } ∧
    clearObstacle (clearObstacle sys segs i now).2.1 (clearObstacle sys segs i now).2.2 i now
      = (false, (clearObstacle sys segs i now).2.1, (clearObstacle sys segs i now).2.2) ∧
    (clearObstacle (clearObstacle sys segs i now).2.1 (clearObstacle sys segs i now).2.2 i
        now).2.1.obstaclesCleared = sys.obstaclesCleared + 1 ∧
    (∀ (sys2 : ObstacleSystem) (segs2 : List Segment) (obs2 : Obstacle),
      sys2.obstacles.get? i = some obs2 → (obs2.cleared = true ∨ obs2.clearing = true) →
      clearObstacle sys2 segs2 i now = (false, sys2, segs2)) := by
  have hlen : i < sys.obstacles.length := by
    by_contra hli
    rw [List.get?_eq_none.mpr (by omega)] at hget
    cases hget
  have hgetE : sys.obstacles[i]? = some obs := by
    rw [← List.get?_eq_getElem?]
    exact hget
  have hfirst : clearObstacle sys segs i now
      = (true,
         { sys with
             obstacles := sys.obstacles.set i { obs with cleared := false, clearing := true },
             obstaclesCleared := sys.obstaclesCleared + 1,
             lastClearTime := now },
         if obs.type = .gap then
           match obs.segRef with
           | some sx => setGapFlag segs sx false
           | none => segs
         else segs) := by
    simp [clearObstacle, hgetE, hnc, hncl]
  have hget2 : (sys.obstacles.set i { obs with cleared := false, clearing := true })[i]?
      = some { obs with cleared := false, clearing := true } := by
    rw [← List.get?_eq_getElem?]
    exact List.get?_set_eq_of_lt _ hlen
  have hsecond : clearObstacle (clearObstacle sys segs i now).2.1
      (clearObstacle sys segs i now).2.2 i now
      = (false, (clearObstacle sys segs i now).2.1, (clearObstacle sys segs i now).2.2) := by
    rw [hfirst]
    simp [clearObstacle, hget2]
  refine ⟨by rw [hfirst], by rw [hfirst],
    by rw [hfirst, show ({ obs with clearing := true } : Obstacle)
        = { obs with cleared := false, clearing := true } by rw [← hnc],
      List.get?_eq_getElem?]; exact hget2,
    hsecond, by rw [hsecond, hfirst], ?_⟩
  intro sys2 segs2 obs2 hg2 hcc
  rcases hcc with hc | hc <;> simp only [clearObstacle, hg2, hc] <;> simp

/-- Witness for C6 on a one-obstacle system: the first call succeeds and
bumps the counter to 1, the second call fails and leaves it at 1. -/
theorem C6_witness :
    (clearObstacle ⟨[⟨.wall, 45, 420, 30, 60, false, false, 0, 0, none, false⟩], 400, 0, 0⟩
      [] 0 5).1 = true ∧
    (clearObstacle ⟨[⟨.wall, 45, 420, 30, 60, false, false, 0, 0, none, false⟩], 400, 0, 0⟩
      [] 0 5).2.1.obstaclesCleared = 0 + 1 := by
  refine ⟨?_, ?_⟩
  · exact (C6_clear_idempotent ⟨[⟨.wall, 45, 420, 30, 60, false, false, 0, 0, none, false⟩],
      400, 0, 0⟩ [] 0 5
      ⟨.wall, 45, 420, 30, 60, false, false, 0, 0, none, false⟩ rfl rfl rfl).1
  · exact (C6_clear_idempotent ⟨[⟨.wall, 45, 420, 30, 60, false, false, 0, 0, none, false⟩],
      400, 0, 0⟩ [] 0 5
      ⟨.wall, 45, 420, 30, 60, false, false, 0, 0, none, false⟩ rfl rfl rfl).2.1

/-! ## C7: offload-boost decay -/

/-- The boost of every hiker after a `stepList` pass is exactly the
decayed boost of the corresponding input hiker. -/
theorem stepList_get?_boost (hs : ℚ) (getY : ℚ → Option ℚ) (dt : ℚ) :
    ∀ (l : List Hiker) (prev : Option Hiker) (i : ℕ),
      ((stepList hs getY dt prev l).get? i).map Hiker.offloadBoost
        = (l.get? i).map (fun h => decayBoost h.offloadBoost dt) := by
  intro l
  induction l with
  | nil => intro prev i; simp [stepList]
  | cons h t ih =>
    intro prev i
    cases i with
    | zero => rfl
    | succ n => simpa [stepList] using ih (some (stepOne hs getY dt prev h)) n

/-- Counterexample to C7's no-overshoot clause: a hiker whose boost is
0.012 (a value reachable by decaying the offload boost 0.4) updated
with deltaTime = 0.1 ends with boost 0.012 - 0.05 = -0.038 < 0: the
decay overshoots zero because the snap-to-zero only fires when the
result's magnitude is below 0.01. -/
theorem C7_counterexample :
    ((HikerSystem.update ⟨[⟨0, 1, 1, 200, 420, 420, false, 3/250, 0⟩], 0⟩
        (1/10) (fun _ => none)).hikers.get? 0).map Hiker.offloadBoost
      = some (-(19/500)) ∧ (0:ℚ) < 3/250 ∧ -(19/500) < (0:ℚ) := by
  refine ⟨?_, by norm_num, by norm_num⟩
  norm_num [HikerSystem.update, stepList, stepOne, decayBoost, abs]

/-- C7 amended: per tick each agent's boost is replaced by
`decayBoost boost deltaTime`, which moves it toward zero by
`deltaTime * 0.5` and snaps to exactly zero when the result's magnitude
is below 0.01; for the reachable nonzero magnitudes (≥ 0.01) the result
stays within 0.01 of exact linear decay, strictly approaches zero, and
can overshoot zero, but never beyond magnitude 0.04. -/
theorem C7_boost_decay (sys : HikerSystem) (dt : ℚ) (getY : ℚ → Option ℚ) (i : ℕ)
    (h1 : 0 < dt) (h2 : dt ≤ 1/10) (hi : i < sys.hikers.length) :
    ((sys.update dt getY).hikers.get? i).map Hiker.offloadBoost
      = (sys.hikers.get? i).map (fun h => decayBoost h.offloadBoost dt) ∧
    decayBoost 0 dt = 0 ∧
    (∀ b : ℚ, 1/100 ≤ b → b ≤ 2/5 →
      |decayBoost b dt - (b - dt * (1/2))| ≤ 1/100 ∧ decayBoost b dt < b ∧
        -(1/25) ≤ decayBoost b dt) ∧
    (∀ b : ℚ, -(1/5) ≤ b → b ≤ -(1/100) →
      |decayBoost b dt - (b + dt * (1/2))| ≤ 1/100 ∧ b < decayBoost b dt ∧
        decayBoost b dt ≤ 1/25) := by
  refine ⟨?_, by simp [decayBoost], ?_, ?_⟩
  · match hl : sys.hikers with
    | [] => rw [hl] at hi; cases hi
    | herbie :: rest =>
      simp only [HikerSystem.update, hl]
      exact stepList_get?_boost _ getY dt (herbie :: rest) none i
  · intro b hb1 hb2
    have hbpos : 0 < b := by linarith
    have hbne : b ≠ 0 := ne_of_gt hbpos
    have hrw : decayBoost b dt
        = if |b - dt * (1/2)| < 1/100 then 0 else b - dt * (1/2) := by
      have e : b + -1 * dt * (1/2) = b - dt * (1/2) := by ring
      simp only [decayBoost, hbne, if_false, if_pos hbpos]
      rw [e]
    rw [hrw]
    split_ifs with habs
    · refine ⟨?_, by linarith, by norm_num⟩
      rw [zero_sub, abs_neg]
      exact le_of_lt habs
    · refine ⟨by simp, by linarith, by linarith⟩
  · intro b hb1 hb2
    have hbneg : b < 0 := by linarith
    have hbne : b ≠ 0 := ne_of_lt hbneg
    have hrw : decayBoost b dt
        = if |b + dt * (1/2)| < 1/100 then 0 else b + dt * (1/2) := by
      simp only [decayBoost, hbne, if_false, if_neg (not_lt.mpr (le_of_lt hbneg))]
      norm_num
    rw [hrw]
    split_ifs with habs
    · refine ⟨?_, by linarith, by norm_num⟩
      rw [zero_sub, abs_neg]
      exact le_of_lt habs
    · refine ⟨by simp, by linarith, by linarith⟩

/-- Witness for C7's amended statement: a tick with deltaTime 0.1 on the
initial caravan decays every boost (from 0 to 0), and the boost 0.4
decays to within 0.01 of 0.4 - 0.05. -/
theorem C7_witness :
    (((HikerSystem.init 200 420).update (1/10) (fun _ => none)).hikers.get? 0).map
        Hiker.offloadBoost
      = ((HikerSystem.init 200 420).hikers.get? 0).map
          (fun h => decayBoost h.offloadBoost (1/10)) ∧
    |decayBoost (2/5) (1/10) - (2/5 - (1/10) * (1/2))| ≤ 1/100 :=
  ⟨(C7_boost_decay (HikerSystem.init 200 420) (1/10) (fun _ => none) 0
      (by norm_num) (by norm_num) (by decide)).1,
   ((C7_boost_decay (HikerSystem.init 200 420) (1/10) (fun _ => none) 0
      (by norm_num) (by norm_num) (by decide)).2.2.1 (2/5) (by norm_num) (by norm_num)).1⟩

/-! ## C1: no-overtaking invariant -/

/-- Decay normal form for a positive boost. -/
theorem decayBoost_pos_eq (b dt : ℚ) (hbpos : 0 < b) :
    decayBoost b dt = if |b - dt * (1/2)| < 1/100 then 0 else b - dt * (1/2) := by
  have e : b + -1 * dt * (1/2) = b - dt * (1/2) := by ring
  simp only [decayBoost, ne_of_gt hbpos, if_false, if_pos hbpos]
  rw [e]

/-- Decay normal form for a negative boost. -/
theorem decayBoost_neg_eq (b dt : ℚ) (hbneg : b < 0) :
    decayBoost b dt = if |b + dt * (1/2)| < 1/100 then 0 else b + dt * (1/2) := by
  have e : b + 1 * dt * (1/2) = b + dt * (1/2) := by ring
  simp only [decayBoost, ne_of_lt hbneg, if_false,
    if_neg (not_lt.mpr (le_of_lt hbneg))]
  rw [e]

/-- The decay step keeps the offload boost inside [-0.2, 0.4]. -/
theorem decayBoost_mem (b dt : ℚ) (h1 : 0 < dt) (h2 : dt ≤ 1/10)
    (hlo : -(1/5) ≤ b) (hhi : b ≤ 2/5) :
    -(1/5) ≤ decayBoost b dt ∧ decayBoost b dt ≤ 2/5 := by
  rcases lt_trichotomy b 0 with hneg | h0 | hpos
  · rw [decayBoost_neg_eq b dt hneg]
    split_ifs with habs
    · constructor <;> norm_num
    · constructor <;> linarith
  · rw [h0]
    simp [decayBoost]
    norm_num
  · rw [decayBoost_pos_eq b dt hpos]
    split_ifs with habs
    · constructor <;> norm_num
    · constructor <;> linarith

theorem stepOne_x (hs : ℚ) (getY : ℚ → Option ℚ) (dt : ℚ) (prev : Option Hiker) (h : Hiker) :
    (stepOne hs getY dt prev h).x = h.x + (chooseSpeed hs prev h).1 * 100 * dt := rfl

theorem stepOne_baseSpeed (hs : ℚ) (getY : ℚ → Option ℚ) (dt : ℚ) (prev : Option Hiker)
    (h : Hiker) : (stepOne hs getY dt prev h).baseSpeed = h.baseSpeed := rfl

theorem stepOne_offloadBoost (hs : ℚ) (getY : ℚ → Option ℚ) (dt : ℚ) (prev : Option Hiker)
    (h : Hiker) : (stepOne hs getY dt prev h).offloadBoost = decayBoost h.offloadBoost dt := rfl

theorem stepOne_currentSpeed (hs : ℚ) (getY : ℚ → Option ℚ) (dt : ℚ) (prev : Option Hiker)
    (h : Hiker) : (stepOne hs getY dt prev h).currentSpeed = (chooseSpeed hs prev h).1 := rfl

theorem stepOne_isWaiting (hs : ℚ) (getY : ℚ → Option ℚ) (dt : ℚ) (prev : Option Hiker)
    (h : Hiker) : (stepOne hs getY dt prev h).isWaiting = (chooseSpeed hs prev h).2 := rfl

/-- With the leader speed at least 0.8 and in-bounds agent parameters,
every selected speed is nonnegative. -/
theorem chooseSpeed_nonneg (hs : ℚ) (prev : Option Hiker) (h : Hiker)
    (hhs : 4/5 ≤ hs) (hb : Bounds h) : 0 ≤ (chooseSpeed hs prev h).1 := by
  obtain ⟨hb1, hb2, hb3, hb4⟩ := hb
  cases prev with
  | none => show (0:ℚ) ≤ hs; linarith
  | some p =>
    simp only [chooseSpeed]
    split_ifs with hc1 hc2
    · exact le_max_left 0 _
    · show (0:ℚ) ≤ h.baseSpeed * (6/5); nlinarith
    · show (0:ℚ) ≤ min (h.baseSpeed + h.offloadBoost) hs
      exact le_min (by linarith) (by linarith)

/-- A speed bounded by `s*10 < d` cannot cover distance `d` in a clamped
tick. -/
theorem move_lt (s d dt : ℚ) (hdt0 : 0 < dt) (hdt : dt ≤ 1/10) (hs0 : 0 ≤ s)
    (hsd : s * 10 < d) : s * 100 * dt < d := by
  have h1 : s * 100 * dt ≤ s * 100 * (1/10) :=
    mul_le_mul_of_nonneg_left hdt (by positivity)
  have h2 : s * 100 * (1/10) = s * 10 := by ring
  linarith

/-- Key no-crossing step: a follower strictly behind the (already
updated) hiker ahead stays strictly behind after its own step, for any
clamped tick, leader speed in [0.8, 2] and in-bounds parameters. -/
theorem stepOne_no_cross (hs : ℚ) (getY : ℚ → Option ℚ) (dt : ℚ) (p h : Hiker)
    (h1 : 0 < dt) (h2 : dt ≤ 1/10) (hhs1 : 4/5 ≤ hs) (hhs2 : hs ≤ 2)
    (hb : Bounds h) (hx : h.x < p.x) :
    (stepOne hs getY dt (some p) h).x < p.x := by
  obtain ⟨hb1, hb2, hb3, hb4⟩ := hb
  rw [stepOne_x]
  have hd : 0 < p.x - h.x := by linarith
  have ht2 : min (h.baseSpeed + h.offloadBoost) hs ≤ 2 := le_trans (min_le_right _ _) hhs2
  have ht0 : (0:ℚ) ≤ min (h.baseSpeed + h.offloadBoost) hs := le_min (by linarith) (by linarith)
  have key : (chooseSpeed hs (some p) h).1 * 100 * dt < p.x - h.x := by
    simp only [chooseSpeed]
    split_ifs with hc1 hc2
    · -- waiting case: speed = max 0 (targetSpeed * (gap / 60)), gap < 48
      refine move_lt _ _ _ h1 h2 (le_max_left 0 _) ?_
      have hz : min (h.baseSpeed + h.offloadBoost) hs * ((p.x - h.x) / spacing)
          ≤ 2 * ((p.x - h.x) / 60) := by
        rw [show spacing = (60:ℚ) from rfl]
        exact mul_le_mul_of_nonneg_right ht2 (by positivity)
      have hmx : max 0 (min (h.baseSpeed + h.offloadBoost) hs * ((p.x - h.x) / spacing))
          ≤ (p.x - h.x) / 30 := by
        refine max_le (by positivity) (le_trans hz (by linarith))
      nlinarith
    · -- catch-up case: speed = baseSpeed * 1.2, gap > 90
      rw [show spacing = (60:ℚ) from rfl] at hc2
      refine move_lt _ _ _ h1 h2 (by nlinarith) ?_
      nlinarith
    · -- tracking case: speed = targetSpeed ≤ hs ≤ 2, gap ≥ 48
      rw [show spacing = (60:ℚ) from rfl] at hc1
      refine move_lt _ _ _ h1 h2 ht0 ?_
      nlinarith
  linarith

/-- With nonnegative speeds, no hiker ever moves backward in a step. -/
theorem stepOne_x_mono (hs : ℚ) (getY : ℚ → Option ℚ) (dt : ℚ) (prev : Option Hiker)
    (h : Hiker) (hdt : 0 ≤ dt) (hhs : 4/5 ≤ hs) (hb : Bounds h) :
    h.x ≤ (stepOne hs getY dt prev h).x := by
  rw [stepOne_x]
  have h0 := chooseSpeed_nonneg hs prev h hhs hb
  nlinarith

/-- Lemma: `stepOne` keeps the per-hiker bounds. -/
theorem stepOne_bounds (hs : ℚ) (getY : ℚ → Option ℚ) (dt : ℚ) (prev : Option Hiker)
    (h : Hiker) (h1 : 0 < dt) (h2 : dt ≤ 1/10) (hb : Bounds h) :
    Bounds (stepOne hs getY dt prev h) := by
  obtain ⟨hb1, hb2, hb3, hb4⟩ := hb
  have hd := decayBoost_mem h.offloadBoost dt h1 h2 hb3 hb4
  exact ⟨hb1, hb2, hd.1, hd.2⟩

/-- Lemma: `stepList` keeps the per-hiker bounds. -/
theorem stepList_bounds (hs : ℚ) (getY : ℚ → Option ℚ) (dt : ℚ)
    (h1 : 0 < dt) (h2 : dt ≤ 1/10) :
    ∀ (l : List Hiker) (prev : Option Hiker), (∀ h ∈ l, Bounds h) →
      ∀ h ∈ stepList hs getY dt prev l, Bounds h := by
  intro l
  induction l with
  | nil => intro prev _ h hmem; simp [stepList] at hmem
  | cons a t ih =>
    intro prev hb h hmem
    rcases List.mem_cons.mp hmem with rfl | hmem
    · exact stepOne_bounds hs getY dt prev a h1 h2 (hb a (List.mem_cons_self a t))
    · exact ih (some (stepOne hs getY dt prev a))
        (fun x hx => hb x (List.mem_cons_of_mem a hx)) h hmem

/-- Strict front-to-back ordering is preserved through the in-place
update pass, given an already-updated front hiker `p`. -/
theorem stepList_chain (hs : ℚ) (getY : ℚ → Option ℚ) (dt : ℚ)
    (h1 : 0 < dt) (h2 : dt ≤ 1/10) (hhs1 : 4/5 ≤ hs) (hhs2 : hs ≤ 2) :
    ∀ (l : List Hiker) (p : Hiker), (∀ h ∈ l, Bounds h) →
      List.Chain' (fun a b => b.x < a.x) (p :: l) →
      List.Chain' (fun a b => b.x < a.x) (p :: stepList hs getY dt (some p) l) := by
  intro l
  induction l with
  | nil => intro p _ _; simp [stepList]
  | cons a t ih =>
    intro p hb hch
    have hba : Bounds a := hb a (List.mem_cons_self a t)
    have hbt : ∀ x ∈ t, Bounds x := fun x hx => hb x (List.mem_cons_of_mem a hx)
    have hax : a.x < p.x := (List.chain'_cons.mp hch).1
    have hcht := (List.chain'_cons.mp hch).2
    have hlt := stepOne_no_cross hs getY dt p a h1 h2 hhs1 hhs2 hba hax
    have hge := stepOne_x_mono hs getY dt (some p) a (le_of_lt h1) hhs1 hba
    have hch2 : List.Chain' (fun a b => b.x < a.x) (stepOne hs getY dt (some p) a :: t) := by
      cases t with
      | nil => simp
      | cons b t2 =>
        have hab := (List.chain'_cons.mp hcht).1
        exact List.chain'_cons.mpr ⟨by linarith, (List.chain'_cons.mp hcht).2⟩
    have hrec := ih (stepOne hs getY dt (some p) a) hbt hch2
    show List.Chain' (fun a b => b.x < a.x)
      (p :: stepOne hs getY dt (some p) a ::
        stepList hs getY dt (some (stepOne hs getY dt (some p) a)) t)
    exact List.chain'_cons.mpr ⟨hlt, hrec⟩

/-- Ordering on hikers is ordering on their mapped positions. -/
theorem chain_x_iff : ∀ (l : List Hiker),
    List.Chain' (fun a b => b.x < a.x) l ↔
      List.Chain' (fun u v : ℚ => v < u) (l.map Hiker.x)
  | [] => by simp
  | [a] => by simp
  | a :: b :: t2 => by
    rw [List.chain'_cons, List.map_cons, List.map_cons, List.chain'_cons]
    have ih := chain_x_iff (b :: t2)
    rw [List.map_cons] at ih
    exact and_congr Iff.rfl ih

theorem map_x_modifyAt (f : Hiker → Hiker) (hf : ∀ h, (f h).x = h.x) :
    ∀ (i : ℕ) (l : List Hiker), (modifyAt f i l).map Hiker.x = l.map Hiker.x
  | _, [] => by simp [modifyAt]
  | 0, a :: l => by simp [modifyAt, hf]
  | n + 1, a :: l => by simpa [modifyAt] using map_x_modifyAt f hf n l

theorem modifyAt_bounds (f : Hiker → Hiker) (hf : ∀ h, Bounds h → Bounds (f h)) :
    ∀ (i : ℕ) (l : List Hiker), (∀ h ∈ l, Bounds h) → ∀ h ∈ modifyAt f i l, Bounds h := by
  intro i l
  induction l generalizing i with
  | nil => intro _ h hm; simp [modifyAt] at hm
  | cons a t ih =>
    intro hb h hm
    cases i with
    | zero =>
      rw [modifyAt] at hm
      rcases List.mem_cons.mp hm with heq | hm2
      · rw [heq]; exact hf a (hb a (List.mem_cons_self a t))
      · exact hb h (List.mem_cons_of_mem a hm2)
    | succ n =>
      rw [modifyAt] at hm
      rcases List.mem_cons.mp hm with heq | hm2
      · rw [heq]; exact hb a (List.mem_cons_self a t)
      · exact ih n (fun x hx => hb x (List.mem_cons_of_mem a hx)) h hm2

/-- The caravan invariant holds at `init`. -/
theorem caravanInv_init (startX startY : ℚ) : CaravanInv (HikerSystem.init startX startY) := by
  constructor
  · intro h hm
    simp only [HikerSystem.init] at hm
    fin_cases hm <;> exact ⟨by norm_num, by norm_num, by norm_num, by norm_num⟩
  · simp only [HikerSystem.init]
    refine List.chain'_cons.mpr ⟨by dsimp; linarith, ?_⟩
    refine List.chain'_cons.mpr ⟨by dsimp; linarith, ?_⟩
    refine List.chain'_cons.mpr ⟨by dsimp; linarith, ?_⟩
    refine List.chain'_cons.mpr ⟨by dsimp; linarith, ?_⟩
    exact List.chain'_singleton _

/-- The caravan invariant is preserved by an update tick with the
orchestrator's clamp `0 < deltaTime ≤ 0.1`. -/
theorem caravanInv_update (sys : HikerSystem) (dt : ℚ) (getY : ℚ → Option ℚ)
    (h1 : 0 < dt) (h2 : dt ≤ 1/10) (hinv : CaravanInv sys) :
    CaravanInv (sys.update dt getY) := by
  obtain ⟨hbnd, hch⟩ := hinv
  match hl : sys.hikers with
  | [] =>
    simp only [HikerSystem.update, hl]
    exact ⟨by simp, by simp⟩
  | herbie :: rest =>
    rw [hl] at hbnd hch
    have hbh : Bounds herbie := hbnd herbie (List.mem_cons_self herbie rest)
    obtain ⟨hh1, hh2, hh3, hh4⟩ := hbh
    have hhs1 : 4/5 ≤ herbie.baseSpeed + herbie.offloadBoost := by linarith
    have hhs2 : herbie.baseSpeed + herbie.offloadBoost ≤ 2 := by linarith
    simp only [HikerSystem.update, hl]
    constructor
    · intro h hm
      exact stepList_bounds _ getY dt h1 h2 (herbie :: rest) none hbnd h hm
    · have hbh2 : Bounds herbie := ⟨hh1, hh2, hh3, hh4⟩
      have hge := stepOne_x_mono (herbie.baseSpeed + herbie.offloadBoost) getY dt none herbie
        (le_of_lt h1) hhs1 hbh2
      have hbt : ∀ x ∈ rest, Bounds x := fun x hx => hbnd x (List.mem_cons_of_mem herbie hx)
      have hch2 : List.Chain' (fun a b => b.x < a.x)
          (stepOne (herbie.baseSpeed + herbie.offloadBoost) getY dt none herbie :: rest) := by
        cases rest with
        | nil => simp
        | cons b t2 =>
          have hab := (List.chain'_cons.mp hch).1
          exact List.chain'_cons.mpr ⟨by linarith, (List.chain'_cons.mp hch).2⟩
      have := stepList_chain (herbie.baseSpeed + herbie.offloadBoost) getY dt h1 h2 hhs1 hhs2
        rest (stepOne (herbie.baseSpeed + herbie.offloadBoost) getY dt none herbie) hbt hch2
      exact this

/-- The caravan invariant is preserved by `offloadHiker`. -/
theorem caravanInv_offload (sys : HikerSystem) (i : ℕ) (hinv : CaravanInv sys) :
    CaravanInv (sys.offloadHiker i) := by
  obtain ⟨hbnd, hch⟩ := hinv
  by_cases hi : i = herbieIndex
  · simpa [HikerSystem.offloadHiker, hi] using ⟨hbnd, hch⟩
  · have hb1 : ∀ h, Bounds h → Bounds ({ h with offloadBoost := -(1/5) }) := by
      intro h hb
      obtain ⟨a, b, _, _⟩ := hb
      exact ⟨a, b, by norm_num, by norm_num⟩
    have hb2 : ∀ h, Bounds h → Bounds ({ h with offloadBoost := max h.offloadBoost (2/5) }) := by
      intro h hb
      obtain ⟨a, b, c, d⟩ := hb
      exact ⟨a, b, le_trans (by norm_num) (le_max_right _ _), max_le d (by norm_num)⟩
    have hbp : ∀ h, Bounds h → Bounds ({ h with pulseTime := 4/5 }) := by
      intro h hb
      obtain ⟨a, b, c, d⟩ := hb
      exact ⟨a, b, c, d⟩
    constructor
    · intro h hm
      simp only [HikerSystem.offloadHiker, hi, if_false, HikerSystem.triggerPulse] at hm
      rcases List.mem_map.mp hm with ⟨h0, hm0, rfl⟩
      refine hbp h0 ?_
      exact modifyAt_bounds _ hb2 herbieIndex _
        (modifyAt_bounds _ hb1 i sys.hikers hbnd) h0 hm0
    · rw [chain_x_iff]
      have hx1 : ((modifyAt (fun h => { h with offloadBoost := -(1/5) }) i
          sys.hikers).map Hiker.x) = sys.hikers.map Hiker.x :=
        map_x_modifyAt (fun h => { h with offloadBoost := -(1/5) }) (fun _ => rfl) i sys.hikers
      have hx2 : ((modifyAt (fun h => { h with offloadBoost := max h.offloadBoost (2/5) })
          herbieIndex (modifyAt (fun h => { h with offloadBoost := -(1/5) }) i
            sys.hikers)).map Hiker.x) = sys.hikers.map Hiker.x := by
        rw [map_x_modifyAt (fun h => { h with offloadBoost := max h.offloadBoost (2/5) })
          (fun _ => rfl), hx1]
      simp only [HikerSystem.offloadHiker, hi, if_false, HikerSystem.triggerPulse]
      rw [List.map_map]
      have : (Hiker.x ∘ fun h => { h with pulseTime := 4/5 }) = Hiker.x := rfl
      rw [this, hx2, ← chain_x_iff]
      exact hch

/-- The caravan invariant is preserved by `setHerbieLabel`. -/
theorem caravanInv_setLabel (sys : HikerSystem) (s : ℚ) (hinv : CaravanInv sys) :
    CaravanInv (sys.setHerbieLabel s) := by
  obtain ⟨hbnd, hch⟩ := hinv
  exact ⟨hbnd, hch⟩

/-- The caravan invariant is preserved by `triggerPulse`. -/
theorem caravanInv_pulse (sys : HikerSystem) (hinv : CaravanInv sys) :
    CaravanInv sys.triggerPulse := by
  obtain ⟨hbnd, hch⟩ := hinv
  constructor
  · intro h hm
    simp only [HikerSystem.triggerPulse] at hm
    rcases List.mem_map.mp hm with ⟨h0, hm0, rfl⟩
    obtain ⟨a, b, c, d⟩ := hbnd h0 hm0
    exact ⟨a, b, c, d⟩
  · rw [chain_x_iff]
    simp only [HikerSystem.triggerPulse]
    rw [List.map_map]
    have : (Hiker.x ∘ fun h => { h with pulseTime := 4/5 }) = Hiker.x := rfl
    rw [this, ← chain_x_iff]
    exact hch

/-- Every reachable caravan state satisfies the invariant. -/
theorem reachable_caravanInv (sys : HikerSystem) (hr : Reachable sys) : CaravanInv sys := by
  induction hr with
  | init sx sy => exact caravanInv_init sx sy
  | update s dt getY hr h1 h2 ih => exact caravanInv_update s dt getY h1 h2 ih
  | offload s i hr ih => exact caravanInv_offload s i ih
  | setLabel s t hr ih => exact caravanInv_setLabel s t ih
  | pulse s hr ih => exact caravanInv_pulse s ih

/-- A chained relation holds between any two consecutive entries. -/
theorem chain'_rel_get? {α : Type} {R : α → α → Prop} :
    ∀ (l : List α), List.Chain' R l →
      ∀ (i : ℕ) (a b : α), l.get? i = some a → l.get? (i+1) = some b → R a b := by
  intro l
  induction l with
  | nil => intro _ i a b h; simp at h
  | cons x t ih =>
    intro hch i a b ha hb
    cases i with
    | zero =>
      have hxa : x = a := by simpa using ha
      cases t with
      | nil => simp at hb
      | cons c t2 =>
        have hcb : c = b := by simpa using hb
        subst hxa; subst hcb
        exact (List.chain'_cons.mp hch).1
    | succ n => exact ih (List.Chain'.tail hch) n a b ha hb

/-- C1: in every reachable run state — `init` followed by any sequence
of `update(deltaTime, terrain)` ticks with deltaTime in (0, 0.1]
(interleaved with offload taps) — the hikers remain strictly ordered by
index along x: every follower's x is strictly below the x of the hiker
ahead of it, so `hikers[i+1].x` never exceeds `hikers[i].x`. -/
theorem C1_no_overtaking (sys : HikerSystem) (hr : Reachable sys) :
    List.Chain' (fun a b => b.x < a.x) sys.hikers ∧
    ∀ (i : ℕ) (a b : Hiker), sys.hikers.get? i = some a →
      sys.hikers.get? (i+1) = some b → b.x < a.x := by
  have hch := (reachable_caravanInv sys hr).2
  exact ⟨hch, fun i a b ha hb => chain'_rel_get? _ hch i a b ha hb⟩

/-- Witness for C1: in the fresh caravan, hiker 1 is
strictly behind Herbie. -/
theorem C1_witness :
    ((HikerSystem.init 200 420).hikers.get ⟨1, by decide⟩).x
      < ((HikerSystem.init 200 420).hikers.get ⟨0, by decide⟩).x := by
  refine (C1_no_overtaking (HikerSystem.init 200 420)
    (Reachable.init 200 420)).2 0 _ _ ?_ ?_ <;> rfl

/-! ## C2: follower speed rule -/

/-- Characterization of consecutive entries of the in-place update pass:
entry `i+1` is the step of the old entry `i+1` against the updated
entry `i`. -/
theorem stepList_get_step (hs : ℚ) (getY : ℚ → Option ℚ) (dt : ℚ) :
    ∀ (l : List Hiker) (prev : Option Hiker) (i : ℕ) (a b : Hiker),
      (stepList hs getY dt prev l).get? i = some a → l.get? (i+1) = some b →
      (stepList hs getY dt prev l).get? (i+1) = some (stepOne hs getY dt (some a) b) := by
  intro l
  induction l with
  | nil => intro prev i a b ha _; simp [stepList] at ha
  | cons h t ih =>
    intro prev i a b ha hb
    cases i with
    | zero =>
      cases t with
      | nil => simp at hb
      | cons c t2 =>
        have hc : c = b := by simpa using hb
        have ha2 : stepOne hs getY dt prev h = a := by simpa [stepList] using ha
        show (stepList hs getY dt prev (h :: c :: t2)).get? 1
          = some (stepOne hs getY dt (some a) b)
        rw [← hc, ← ha2]
        rfl
    | succ n =>
      have hrec := ih (some (stepOne hs getY dt prev h)) n a b
        (by simpa [stepList] using ha) (by simpa using hb)
      simpa [stepList] using hrec

/-- C2: in every update tick, each follower's new `(currentSpeed,
isWaiting)` follows the spacing rule of `FollowerRule`, where the gap is
measured from the already-updated hiker ahead to the follower's
pre-update position and the leader speed is the pre-update
`baseSpeed + offloadBoost` of hiker 0; the leader's own new speed is
exactly that leader speed and it is never waiting. -/
theorem C2_follower_speed_rule (sys : HikerSystem) (dt : ℚ) (getY : ℚ → Option ℚ) (i : ℕ)
    (leader selfOld aheadNew selfNew leadNew : Hiker)
    (hlead : sys.hikers.get? 0 = some leader)
    (hself : sys.hikers.get? (i+1) = some selfOld)
    (hahead : (sys.update dt getY).hikers.get? i = some aheadNew)
    (hnew : (sys.update dt getY).hikers.get? (i+1) = some selfNew)
    (hln : (sys.update dt getY).hikers.get? 0 = some leadNew) :
    FollowerRule (leader.baseSpeed + leader.offloadBoost) selfOld aheadNew selfNew ∧
    leadNew.currentSpeed = leader.baseSpeed + leader.offloadBoost ∧
    leadNew.isWaiting = false := by
  match hl : sys.hikers with
  | [] => rw [hl] at hlead; cases hlead
  | h0 :: rest =>
    rw [hl] at hlead
    have h0eq : h0 = leader := by simpa using hlead
    subst h0eq
    have hupd : (sys.update dt getY).hikers
        = stepList (h0.baseSpeed + h0.offloadBoost) getY dt none (h0 :: rest) := by
      simp [HikerSystem.update, hl]
    rw [hupd] at hahead hnew hln
    have hlneq : stepOne (h0.baseSpeed + h0.offloadBoost) getY dt none h0 = leadNew := by
      simpa [stepList] using hln
    have hsn : stepOne (h0.baseSpeed + h0.offloadBoost) getY dt (some aheadNew) selfOld
        = selfNew := by
      have hstep := stepList_get_step (h0.baseSpeed + h0.offloadBoost) getY dt
        (h0 :: rest) none i aheadNew selfOld hahead (by rw [← hl]; exact hself)
      rw [hstep] at hnew
      exact Option.some.inj hnew
    refine ⟨?_, ?_, ?_⟩
    · rw [← hsn]
      unfold FollowerRule
      simp only [stepOne_isWaiting, stepOne_currentSpeed, chooseSpeed]
      norm_num [spacing]
      split_ifs with hc1 hc2
      · exact ⟨rfl, rfl⟩
      · exact ⟨rfl, rfl⟩
      · exact ⟨rfl, rfl⟩
    · rw [← hlneq]
      rfl
    · rw [← hlneq]
      rfl

/-- Witness for C2 on the initial caravan after one 0.1s no-terrain
tick: hiker 1's gap to the updated Herbie is 70 (between 48 and 90), so
it tracks `targetSpeed = min(1.15, 1) = 1` and is not waiting, while
Herbie moves at speed 1. -/
theorem C2_witness :
    FollowerRule
      ((⟨0, 1, 1, 200, 420, 420, false, 0, 0⟩ : Hiker).baseSpeed
        + (⟨0, 1, 1, 200, 420, 420, false, 0, 0⟩ : Hiker).offloadBoost)
      ⟨1, 23/20, 23/20, 140, 420, 420, false, 0, 0⟩
      ⟨0, 1, 1, 210, 420, 420, false, 0, 0⟩
      ⟨1, 23/20, 1, 150, 420, 420, false, 0, 0⟩ ∧
    (⟨0, 1, 1, 210, 420, 420, false, 0, 0⟩ : Hiker).currentSpeed
      = (⟨0, 1, 1, 200, 420, 420, false, 0, 0⟩ : Hiker).baseSpeed
        + (⟨0, 1, 1, 200, 420, 420, false, 0, 0⟩ : Hiker).offloadBoost ∧
    (⟨0, 1, 1, 210, 420, 420, false, 0, 0⟩ : Hiker).isWaiting = false := by
  refine C2_follower_speed_rule (HikerSystem.init 200 420) (1/10) (fun _ => none) 0
    ⟨0, 1, 1, 200, 420, 420, false, 0, 0⟩ ⟨1, 23/20, 23/20, 140, 420, 420, false, 0, 0⟩
    ⟨0, 1, 1, 210, 420, 420, false, 0, 0⟩ ⟨1, 23/20, 1, 150, 420, 420, false, 0, 0⟩
    ⟨0, 1, 1, 210, 420, 420, false, 0, 0⟩ ?_ ?_ ?_ ?_ ?_
  · rfl
  · norm_num [HikerSystem.init]
  · norm_num [HikerSystem.update, HikerSystem.init, stepList, stepOne, chooseSpeed,
      decayBoost, spacing]
  · norm_num [HikerSystem.update, HikerSystem.init, stepList, stepOne, chooseSpeed,
      decayBoost, spacing]
  · norm_num [HikerSystem.update, HikerSystem.init, stepList, stepOne, chooseSpeed,
      decayBoost, spacing]

/-! ## C8: gap flag lifecycle -/

/-- Counterexample to C8: a live (not cleared, not clearing) gap
obstacle that has scrolled behind `cameraX - 200` is pruned by
`ObstacleSystem.update`, but the pruning filter never resets its
segment's `hasGap` flag, so the segment stays gapped with no live gap
obstacle owning it (no spawn occurs: distance 500 is below the next
threshold 10000). -/
theorem C8_counterexample :
    (ObstacleSystem.update ⟨[⟨.gap, 0, 420, 150, 20, false, false, 0, 0, some 0, false⟩],
        10000, 0, 0⟩ (1/60) 1000 800 [⟨0, 420, 150, 20, true⟩] 500 0 0).1.obstacles = [] ∧
    (ObstacleSystem.update ⟨[⟨.gap, 0, 420, 150, 20, false, false, 0, 0, some 0, false⟩],
        10000, 0, 0⟩ (1/60) 1000 800 [⟨0, 420, 150, 20, true⟩] 500 0 0).2
      = [⟨0, 420, 150, 20, true⟩] ∧
    ([(⟨0, 420, 150, 20, true⟩ : Segment)].map Segment.hasGap = [true]) := by
  refine ⟨?_, ?_, by decide⟩ <;>
    norm_num [ObstacleSystem.update, spawnObstacle, difficultyAt, chooseObstacleType,
      coversB, setGapFlag, baseSpawnRate, minSpawnRate]

/-- C8 amended: spawning a gap flags the found host segment; the flag is
reset only when `clearObstacle` succeeds on the live gap obstacle
(entering `clearing`); the pruning pass of `ObstacleSystem.update`
leaves segments — and hence `hasGap` — untouched (shown here for a
no-spawn tick, where the update's only segment effect could have been
the spawn). -/
theorem C8_gap_flag (sys : ObstacleSystem) (segs : List Segment)
    (cameraX canvasWidth distance rand dt now randJ sx : ℚ) (i : ℕ)
    (seg : Segment) (obs : Obstacle)
    (hfind : segs.find? (coversB (cameraX + canvasWidth + 200)) = some seg)
    (htype : chooseObstacleType (difficultyAt distance) rand = .gap)
    (hget : sys.obstacles.get? i = some obs)
    (hnc : obs.cleared = false) (hncl : obs.clearing = false)
    (hgap : obs.type = .gap) (hsx : obs.segRef = some sx)
    (hnospawn : ¬ sys.nextObstacleDistance < distance) :
    (spawnObstacle sys cameraX canvasWidth segs distance rand).2
      = setGapFlag segs seg.x true ∧
    (clearObstacle sys segs i now).2.2 = setGapFlag segs sx false ∧
    (ObstacleSystem.update sys dt cameraX canvasWidth segs distance rand randJ).2 = segs := by
  have hgetE : sys.obstacles[i]? = some obs := by
    rw [← List.get?_eq_getElem?]
    exact hget
  refine ⟨?_, ?_, ?_⟩
  · simp only [spawnObstacle, htype, hfind]
  · simp [clearObstacle, hgetE, hnc, hncl, hgap, hsx]
  · simp [ObstacleSystem.update, hnospawn]

/-- Witness for C8's amended statement on a concrete scene: a fresh gap
spawn at distance 0 with draw 0.8 flags segment x = 0; clearing the live
gap obstacle un-flags it; a no-spawn update tick returns the segments
unchanged. -/
theorem C8_witness :
    (spawnObstacle ⟨[⟨.gap, 0, 420, 150, 20, false, false, 0, 0, some 0, false⟩], 10000, 0, 0⟩
        (-950) 800 [⟨0, 420, 150, 20, false⟩] 0 (4/5)).2
      = setGapFlag [⟨0, 420, 150, 20, false⟩] (0:ℚ) true ∧
    (clearObstacle ⟨[⟨.gap, 0, 420, 150, 20, false, false, 0, 0, some 0, false⟩], 10000, 0, 0⟩
        [⟨0, 420, 150, 20, false⟩] 0 7).2.2
      = setGapFlag [⟨0, 420, 150, 20, false⟩] (0:ℚ) false ∧
    (ObstacleSystem.update ⟨[⟨.gap, 0, 420, 150, 20, false, false, 0, 0, some 0, false⟩],
        10000, 0, 0⟩ (1/60) (-950) 800 [⟨0, 420, 150, 20, false⟩] 0 (4/5) 0).2
      = [⟨0, 420, 150, 20, false⟩] :=
  C8_gap_flag ⟨[⟨.gap, 0, 420, 150, 20, false, false, 0, 0, some 0, false⟩], 10000, 0, 0⟩
    [⟨0, 420, 150, 20, false⟩] (-950) 800 0 (4/5) (1/60) 7 0 0 0
    ⟨0, 420, 150, 20, false⟩ ⟨.gap, 0, 420, 150, 20, false, false, 0, 0, some 0, false⟩
    (by norm_num [coversB]) (by norm_num [chooseObstacleType, difficultyAt]) rfl
    rfl rfl rfl rfl (by norm_num)

/-! ## C10: flat contiguous terrain -/

/-- Lemma: `generateSegment` preserves the terrain invariant. -/
theorem tinv_gen (t : Terrain) (ht : TInv t) : TInv (generateSegment t) := by
  obtain ⟨hbase, hmem, hch, hlast⟩ := ht
  refine ⟨hbase, ?_, ?_, ?_⟩
  · intro s hm
    simp only [generateSegment] at hm
    rcases List.mem_append.mp hm with hm2 | hm2
    · exact hmem s hm2
    · have hs : s = ⟨t.nextSegmentX, t.baseY, segmentWidth, 20, false⟩ := by simpa using hm2
      rw [hs]
      exact ⟨rfl, by norm_num [segmentWidth], rfl⟩
  · simp only [generateSegment]
    rw [List.chain'_append]
    refine ⟨hch, List.chain'_singleton _, ?_⟩
    intro x hx y hy
    have hxl : t.segments.getLast? = some x := Option.mem_def.mp hx
    have hyh : (⟨t.nextSegmentX, t.baseY, segmentWidth, 20, false⟩ : Segment) = y := by
      simpa using hy
    rw [← hyh]
    show t.nextSegmentX = x.x + 150
    exact (hlast x hxl).symm
  · intro s hlaste
    simp only [generateSegment] at hlaste ⊢
    rw [List.getLast?_append_of_ne_nil _ (by simp)] at hlaste
    have hs : (⟨t.nextSegmentX, t.baseY, segmentWidth, 20, false⟩ : Segment) = s := by
      simpa using hlaste
    rw [← hs]
    show t.nextSegmentX + 150 = t.nextSegmentX + segmentWidth
    norm_num [segmentWidth]

/-- Iterated generation preserves the terrain invariant. -/
theorem tinv_iterate (t : Terrain) (ht : TInv t) : ∀ n, TInv (generateSegment^[n] t) := by
  intro n
  induction n with
  | zero => simpa using ht
  | succ n ih =>
    rw [Function.iterate_succ_apply']
    exact tinv_gen _ ih

/-- The terrain invariant holds right after `init`. -/
theorem tinv_init (w h : ℚ) : TInv (Terrain.init w h) := by
  unfold Terrain.init
  refine tinv_iterate _ ⟨rfl, ?_, ?_, ?_⟩ 10 <;> simp

/-- The generation loop of `Terrain.update` preserves the invariant. -/
theorem tinv_genLoop (t : Terrain) (re : ℚ) (ht : TInv t) : TInv (genLoop t re) := by
  induction t, re using genLoop.induct with
  | case1 t re hlt ih =>
    rw [genLoop, if_pos hlt]
    exact ih (tinv_gen t ht)
  | case2 t re hlt =>
    rw [genLoop, if_neg hlt]
    exact ht

/-- Contiguity gives strictly increasing segment positions. -/
theorem chain'_lt_of_contig (l : List Segment)
    (hch : List.Chain' (fun a b : Segment => b.x = a.x + 150) l) :
    List.Chain' (fun a b : Segment => a.x < b.x) l :=
  hch.imp (fun a b hab => by rw [hab]; linarith)

/-- A chain of strict position increases is pairwise. -/
theorem pairwise_lt_of_chain' : ∀ (l : List Segment),
    List.Chain' (fun a b : Segment => a.x < b.x) l →
    List.Pairwise (fun a b : Segment => a.x < b.x) l := by
  intro l
  induction l with
  | nil => intro _; exact List.Pairwise.nil
  | cons a t ih =>
    intro hch
    have h1 := (List.chain'_cons'.mp hch).1
    have h2 := (List.chain'_cons'.mp hch).2
    refine List.Pairwise.cons ?_ (ih h2)
    intro b hb
    cases t with
    | nil => simp at hb
    | cons c t2 =>
      have hac : a.x < c.x := h1 c rfl
      rcases List.mem_cons.mp hb with heq | hb2
      · rw [heq]; exact hac
      · exact lt_trans hac (List.rel_of_pairwise_cons (ih h2) hb2)

/-- Filtering with a predicate that is upward-closed along the list
keeps a suffix. -/
theorem filter_suffix_of_mono (p : Segment → Bool) :
    ∀ (l : List Segment), List.Pairwise (fun a b => p a = true → p b = true) l →
      l.filter p <:+ l := by
  intro l
  induction l with
  | nil => intro _; simp
  | cons a t ih =>
    intro hp
    by_cases hpa : p a = true
    · rw [List.filter_cons_of_pos hpa]
      rw [List.filter_eq_self.mpr (fun b hb => List.rel_of_pairwise_cons hp hb hpa)]
    · rw [List.filter_cons_of_neg (by simpa using hpa)]
      exact (ih (List.Pairwise.of_cons hp)).trans (List.suffix_cons a t)

/-- The off-screen pruning filter of `Terrain.update` preserves the
invariant: on a contiguous width-150 strip the kept segments form a
suffix. -/
theorem tinv_filter (t : Terrain) (c : ℚ) (ht : TInv t) :
    TInv { t with segments := t.segments.filter (fun s => decide (c < s.x + s.width)) } := by
  obtain ⟨hbase, hmem, hch, hlast⟩ := ht
  have hw : ∀ s ∈ t.segments, s.width = 150 := fun s hs => (hmem s hs).2.1
  have hlt := pairwise_lt_of_chain' _ (chain'_lt_of_contig _ hch)
  have hmono : List.Pairwise
      (fun a b => (fun s => decide (c < s.x + s.width)) a = true →
        (fun s => decide (c < s.x + s.width)) b = true) t.segments := by
    refine List.Pairwise.imp_of_mem ?_ hlt
    intro a b hain hbin hab hpa
    simp only [decide_eq_true_eq] at hpa ⊢
    rw [hw a hain] at hpa
    rw [hw b hbin]
    linarith
  have hsuf := filter_suffix_of_mono _ t.segments hmono
  refine ⟨hbase, ?_, ?_, ?_⟩
  · intro s hs
    exact hmem s (List.mem_of_mem_filter hs)
  · exact hch.suffix hsuf
  · intro s hs
    obtain ⟨pre, hpre⟩ := hsuf
    have hne : t.segments.filter (fun s => decide (c < s.x + s.width)) ≠ [] := by
      intro h0
      rw [h0] at hs
      cases hs
    have hsame : t.segments.getLast?
        = (t.segments.filter (fun s => decide (c < s.x + s.width))).getLast? := by
      conv_lhs => rw [← hpre]
      exact List.getLast?_append_of_ne_nil pre hne
    exact hlast s (by rw [hsame]; exact hs)

/-- Lemma: `Terrain.update` preserves the invariant. -/
theorem tinv_update (t : Terrain) (dt dist : ℚ) (hx : Option ℚ) (ht : TInv t) :
    TInv (t.update dt dist hx) := by
  cases hx with
  | none =>
    simp only [Terrain.update]
    exact tinv_filter _ _ (tinv_genLoop _ _ ⟨ht.1, ht.2.1, ht.2.2.1, ht.2.2.2⟩)
  | some hv =>
    simp only [Terrain.update]
    exact tinv_filter _ _ (tinv_genLoop _ _ ⟨ht.1, ht.2.1, ht.2.2.1, ht.2.2.2⟩)

theorem map_x_setGapFlag (l : List Segment) (sx : ℚ) (b : Bool) :
    (setGapFlag l sx b).map Segment.x = l.map Segment.x := by
  induction l with
  | nil => rfl
  | cons a t ih =>
    simp only [setGapFlag, List.map_cons] at ih ⊢
    have hhead : ((if a.x = sx then { a with hasGap := b } else a) : Segment).x = a.x := by
      split_ifs <;> rfl
    rw [hhead, ih]

/-- Contiguity of segments is contiguity of their mapped positions. -/
theorem chain_contig_iff : ∀ (l : List Segment),
    List.Chain' (fun a b : Segment => b.x = a.x + 150) l ↔
      List.Chain' (fun u v : ℚ => v = u + 150) (l.map Segment.x)
  | [] => by simp
  | [a] => by simp
  | a :: b :: t2 => by
    rw [List.chain'_cons, List.map_cons, List.map_cons, List.chain'_cons]
    have ih := chain_contig_iff (b :: t2)
    rw [List.map_cons] at ih
    exact and_congr Iff.rfl ih

/-- The obstacle manager's gap-flag mutations preserve the invariant:
they only touch `hasGap`. -/
theorem tinv_setGap (t : Terrain) (sx : ℚ) (b : Bool) (ht : TInv t) :
    TInv { t with segments := setGapFlag t.segments sx b } := by
  obtain ⟨hbase, hmem, hch, hlast⟩ := ht
  refine ⟨hbase, ?_, ?_, ?_⟩
  · intro s hs
    simp only [setGapFlag] at hs
    rcases List.mem_map.mp hs with ⟨s0, hs0, heq⟩
    obtain ⟨hy, hwd, hh⟩ := hmem s0 hs0
    rw [← heq]
    by_cases hcc : s0.x = sx
    · rw [if_pos hcc]
      exact ⟨hy, hwd, hh⟩
    · rw [if_neg hcc]
      exact ⟨hy, hwd, hh⟩
  · rw [chain_contig_iff, map_x_setGapFlag, ← chain_contig_iff]
    exact hch
  · intro s hs
    simp only [setGapFlag] at hs
    rw [List.getLast?_map] at hs
    cases hl : t.segments.getLast? with
    | none => rw [hl] at hs; cases hs
    | some s0 =>
      rw [hl] at hs
      have heq : (if s0.x = sx then { s0 with hasGap := b } else s0) = s := by
        simpa using hs
      have hx0 : s.x = s0.x := by
        rw [← heq]
        split_ifs <;> rfl
      show s.x + 150 = t.nextSegmentX
      rw [hx0]
      exact hlast s0 hl

/-- Every reachable terrain state satisfies the invariant. -/
theorem treachable_tinv (t : Terrain) (ht : TReachable t) : TInv t := by
  induction ht with
  | init w h => exact tinv_init w h
  | update t dt dist hx ht ih => exact tinv_update t dt dist hx ih
  | setGap t sx b ht ih => exact tinv_setGap t sx b ih

/-- C10: in every reachable terrain state, every ground segment has
height `y = 0.7 × canvasHeight` and width 150; each segment starts
exactly where the previous one ends (and the generation cursor
`nextSegmentX` sits at the end of the last one); segments are
contiguous, non-overlapping and strictly ordered by x; and `getYAtX`
returns the same constant `0.7 × canvasHeight` for every x covered by a
non-gapped segment. -/
theorem C10_flat_terrain (t : Terrain) (ht : TReachable t) : TerrainFlat t := by
  obtain ⟨hbase, hmem, hch, hlast⟩ := treachable_tinv t ht
  refine ⟨?_, hch, hlast, ?_, ?_⟩
  · intro s hs
    obtain ⟨hy, hwd, _⟩ := hmem s hs
    exact ⟨by rw [hy, hbase], hwd⟩
  · exact pairwise_lt_of_chain' _ (chain'_lt_of_contig _ hch)
  · intro x q hq
    unfold Terrain.getYAtX at hq
    cases hf : t.segments.find? (fun s => decide (s.x ≤ x ∧ x < s.x + s.width)) with
    | none => rw [hf] at hq; cases hq
    | some s =>
      rw [hf] at hq
      have hq2 : (if s.hasGap = true then none else some s.y) = some q := hq
      obtain ⟨hy, _, _⟩ := hmem s (List.mem_of_find?_eq_some hf)
      by_cases hgb : s.hasGap = true
      · rw [if_pos hgb] at hq2
        cases hq2
      · rw [if_neg hgb] at hq2
        have : s.y = q := by simpa using hq2
        rw [← this, hy, hbase]

/-- Witness for C10: on the fresh 800×600 terrain, the
ground query at x = 10 returns 420 = 0.7 × 600. -/
theorem C10_witness : (420:ℚ) = (Terrain.init 800 600).canvasHeight * (7/10) :=
  (C10_flat_terrain _ (TReachable.init 800 600)).2.2.2.2 10 420
    (by norm_num [Terrain.init, generateSegment, Terrain.getYAtX, segmentWidth])
